import Mathlib

/-!
Shallow embedding of the boids flocking simulator (Vector and Boid classes
and the per-frame loop of the main script) over the real numbers, together
with theorems settling the specification claims. The JavaScript in-place
vector mutations become pure functions returning new values; number
arithmetic is idealized as real arithmetic, so the claims stated by the
specification as holding up to floating-point epsilon are stated exactly.
-/

namespace BoidSim

/-- Two dimensional vector with real components, mirroring the Vector class
of the source (fields x and y). -/
structure Vec where
  x : ℝ
  y : ℝ

/-- Constant MAX_FORCE of the source: the maximum steering force. -/
def MAX_FORCE : ℝ := 0.5

/-- Constant MAX_SPEED of the source: the maximum speed of a boid. -/
def MAX_SPEED : ℝ := 5

/-- Constant ORB_STRENGTH of the source: the strength of an orb. -/
def ORB_STRENGTH : ℝ := 40

/-- Constant ORB_RADIUS of the source. -/
def ORB_RADIUS : ℝ := 10

/-- Vector.add of the source. -/
def Vec.add (v o : Vec) : Vec := ⟨v.x + o.x, v.y + o.y⟩

/-- Vector.sub of the source. -/
def Vec.sub (v o : Vec) : Vec := ⟨v.x - o.x, v.y - o.y⟩

/-- Vector.mult of the source (scalar multiplication). -/
def Vec.mult (v : Vec) (s : ℝ) : Vec := ⟨v.x * s, v.y * s⟩

/-- Vector.div of the source (componentwise division by a scalar). -/
noncomputable def Vec.div (v : Vec) (s : ℝ) : Vec := ⟨v.x / s, v.y / s⟩

/-- Vector.mag of the source: Math.sqrt(x*x + y*y). -/
noncomputable def Vec.mag (v : Vec) : ℝ := Real.sqrt (v.x * v.x + v.y * v.y)

/-- Vector.normalize of the source: divide by the magnitude when it is
positive, otherwise leave the vector unchanged. -/
noncomputable def Vec.normalize (v : Vec) : Vec :=
  if v.mag > 0 then v.div v.mag else v

/-- Vector.setMag of the source: normalize then scale. -/
noncomputable def Vec.setMag (v : Vec) (m : ℝ) : Vec := (v.normalize).mult m

/-- Vector.limit of the source: rescale to the bound only when the current
magnitude exceeds it. -/
noncomputable def Vec.limit (v : Vec) (mx : ℝ) : Vec :=
  if v.mag > mx then v.setMag mx else v

/-- Vector.copy of the source; with value semantics it rebuilds the pair. -/
def Vec.copy (v : Vec) : Vec := ⟨v.x, v.y⟩

/-- Vector.dist of the source: Math.sqrt(pow(dx,2) + pow(dy,2)). -/
noncomputable def Vec.dist (a b : Vec) : ℝ :=
  Real.sqrt ((a.x - b.x) ^ 2 + (a.y - b.y) ^ 2)

/-- Dot product, used only to state the orb force direction property. -/
def Vec.dot (a b : Vec) : ℝ := a.x * b.x + a.y * b.y

theorem Vec.mag_nonneg (v : Vec) : 0 ≤ v.mag := Real.sqrt_nonneg _

theorem Vec.mag_mult (v : Vec) (s : ℝ) : (v.mult s).mag = |s| * v.mag := by
  unfold Vec.mult Vec.mag
  have h : v.x * s * (v.x * s) + v.y * s * (v.y * s)
      = s ^ 2 * (v.x * v.x + v.y * v.y) := by ring
  rw [h, Real.sqrt_mul (sq_nonneg s), Real.sqrt_sq_eq_abs]

theorem Vec.div_eq_mult (v : Vec) (s : ℝ) : v.div s = v.mult s⁻¹ := by
  unfold Vec.div Vec.mult
  rw [div_eq_mul_inv, div_eq_mul_inv]

theorem Vec.mag_div (v : Vec) (s : ℝ) : (v.div s).mag = |s|⁻¹ * v.mag := by
  rw [Vec.div_eq_mult, Vec.mag_mult, abs_inv]

theorem Vec.mag_normalize_of_pos {v : Vec} (h : 0 < v.mag) :
    v.normalize.mag = 1 := by
  unfold Vec.normalize
  rw [if_pos h, Vec.mag_div, abs_of_pos h, inv_mul_cancel₀ (ne_of_gt h)]

theorem Vec.mag_setMag_of_pos {v : Vec} {m : ℝ} (h : 0 < v.mag) (hm : 0 ≤ m) :
    (v.setMag m).mag = m := by
  unfold Vec.setMag
  rw [Vec.mag_mult, Vec.mag_normalize_of_pos h, mul_one, abs_of_nonneg hm]

theorem Vec.mag_limit_le (v : Vec) {mx : ℝ} (h : 0 ≤ mx) :
    (v.limit mx).mag ≤ mx := by
  unfold Vec.limit
  split_ifs with hgt
  · exact le_of_eq (Vec.mag_setMag_of_pos (lt_of_le_of_lt h hgt) h)
  · exact le_of_not_lt hgt

/-- Fold step counts never decrease when every step either keeps the
accumulator or increments the counter. -/
theorem foldl_snd_mono {α : Type} (g : Vec × ℕ → α → Vec × ℕ)
    (hg : ∀ acc o, acc.2 ≤ (g acc o).2) :
    ∀ (l : List α) (init : Vec × ℕ), init.2 ≤ (l.foldl g init).2 := by
  intro l
  induction l with
  | nil => intro init; exact le_refl _
  | cons o rest ih =>
      intro init
      exact le_trans (hg init o) (ih (g init o))

/-- Folding a step that is the identity outside the predicate over a list
with no element satisfying the predicate returns the initial accumulator. -/
theorem foldl_id_of_none {α : Type} (g : Vec × ℕ → α → Vec × ℕ) (P : α → Prop)
    (hg : ∀ acc o, ¬ P o → g acc o = acc) :
    ∀ (l : List α) (init : Vec × ℕ), (∀ o ∈ l, ¬ P o) → l.foldl g init = init := by
  intro l
  induction l with
  | nil => intro init _; rfl
  | cons o rest ih =>
      intro init h
      have hno : ¬ P o := h o (List.mem_cons_self o rest)
      rw [List.foldl_cons, hg init o hno]
      exact ih init (fun o ho => h o (List.mem_cons_of_mem _ ho))

/-- Folding over a list containing an element satisfying the predicate
strictly increases the counter, when steps are monotone and steps on
satisfying elements strictly increase it. -/
theorem foldl_snd_pos {α : Type} (g : Vec × ℕ → α → Vec × ℕ) (P : α → Prop)
    (hmono : ∀ acc o, acc.2 ≤ (g acc o).2)
    (hP : ∀ acc o, P o → acc.2 < (g acc o).2) :
    ∀ (l : List α) (init : Vec × ℕ), (∃ o ∈ l, P o) → init.2 < (l.foldl g init).2 := by
  intro l
  induction l with
  | nil => intro init h; rcases h with ⟨o, ho, _⟩; cases ho
  | cons o rest ih =>
      intro init h
      rcases h with ⟨w, hw, hPw⟩
      rcases List.mem_cons.mp hw with hweq | hwrest
      · subst hweq
        exact lt_of_lt_of_le (hP init w hPw) (foldl_snd_mono g hmono rest _)
      · exact lt_of_le_of_lt (hmono init o) (ih (g init o) ⟨w, hwrest, hPw⟩)

/-- Agent state, mirroring the Boid class fields. The color field is the
opaque color string. -/
structure Boid where
  position : Vec
  velocity : Vec
  acceleration : Vec
  size : ℝ
  color : String

/-- Loop body of Boid.separation: at distance d below
desiredSeparation = size * 6, accumulate (self.position - other.position)
divided by d * d and increment the neighbor count. The source skips the
boid itself by reference identity; the embedding passes the other boids
explicitly. -/
noncomputable def Boid.sepStep (self : Boid) (acc : Vec × ℕ) (other : Boid) : Vec × ℕ :=
  let d := Vec.dist self.position other.position
  if d < self.size * 6 then
    (acc.1.add (((self.position.copy).sub other.position).div (d * d)), acc.2 + 1)
  else acc

/-- Accumulation loop of Boid.separation over the other boids. -/
noncomputable def Boid.sepScan (self : Boid) (others : List Boid) : Vec × ℕ :=
  others.foldl (Boid.sepStep self) (⟨0, 0⟩, 0)

/-- Boid.separation of the source: when neighbors were found, average the
accumulated repulsion, rescale to MAX_SPEED, subtract the velocity and
clamp to MAX_FORCE; otherwise return the untouched zero accumulator. -/
noncomputable def Boid.separation (self : Boid) (others : List Boid) : Vec :=
  let scan := Boid.sepScan self others
  if scan.2 > 0 then
    ((((scan.1.div (scan.2 : ℝ)).setMag MAX_SPEED).sub self.velocity).limit MAX_FORCE)
  else scan.1

/-- Loop body of Boid.alignment: within PERCEPTION_RADIUS, accumulate the
velocity of the other boid and increment the count. -/
noncomputable def Boid.aliStep (percep : ℝ) (self : Boid) (acc : Vec × ℕ) (other : Boid) :
    Vec × ℕ :=
  if Vec.dist self.position other.position < percep then
    (acc.1.add other.velocity, acc.2 + 1)
  else acc

/-- Accumulation loop of Boid.alignment over the other boids. -/
noncomputable def Boid.aliScan (percep : ℝ) (self : Boid) (others : List Boid) : Vec × ℕ :=
  others.foldl (Boid.aliStep percep self) (⟨0, 0⟩, 0)

/-- Boid.alignment of the source. -/
noncomputable def Boid.alignment (percep : ℝ) (self : Boid) (others : List Boid) : Vec :=
  let scan := Boid.aliScan percep self others
  if scan.2 > 0 then
    ((((scan.1.div (scan.2 : ℝ)).setMag MAX_SPEED).sub self.velocity).limit MAX_FORCE)
  else scan.1

/-- Loop body of Boid.cohesion: within PERCEPTION_RADIUS, accumulate the
position of the other boid and increment the count. -/
noncomputable def Boid.cohStep (percep : ℝ) (self : Boid) (acc : Vec × ℕ) (other : Boid) :
    Vec × ℕ :=
  if Vec.dist self.position other.position < percep then
    (acc.1.add other.position, acc.2 + 1)
  else acc

/-- Accumulation loop of Boid.cohesion over the other boids. -/
noncomputable def Boid.cohScan (percep : ℝ) (self : Boid) (others : List Boid) : Vec × ℕ :=
  others.foldl (Boid.cohStep percep self) (⟨0, 0⟩, 0)

/-- Boid.cohesion of the source: average the accumulated positions, point
from the own position to that centroid, rescale to MAX_SPEED, subtract the
velocity and clamp to MAX_FORCE. -/
noncomputable def Boid.cohesion (percep : ℝ) (self : Boid) (others : List Boid) : Vec :=
  let scan := Boid.cohScan percep self others
  if scan.2 > 0 then
    (((((scan.1.div (scan.2 : ℝ)).sub self.position).setMag MAX_SPEED).sub
        self.velocity).limit MAX_FORCE)
  else scan.1

/-- Boid.update of the source: add acceleration into velocity, clamp the
velocity to MAX_SPEED, add the velocity into position, zero the
acceleration by multiplying it with 0. -/
noncomputable def Boid.update (b : Boid) : Boid :=
  let v := (b.velocity.add b.acceleration).limit MAX_SPEED
  { b with velocity := v
           position := b.position.add v
           acceleration := b.acceleration.mult 0 }

/-- C1: for every agent, after a call to update the magnitude of the
velocity is at most MAX_SPEED, regardless of the accumulated acceleration;
since this holds for an arbitrary pre-state, it holds after every update
of every cycle. -/
theorem c1_speed_bounded_after_update (b : Boid) :
    (Boid.update b).velocity.mag ≤ MAX_SPEED := by
  unfold Boid.update
  exact Vec.mag_limit_le _ (by norm_num [MAX_SPEED])

/-- C8: update performs exactly the documented integration step: the new
velocity is the old velocity plus the acceleration clamped to MAX_SPEED,
the new position is the old position plus the new velocity, and the
acceleration is reset to the zero vector; size and color are untouched. -/
theorem c8_update_exact (b : Boid) :
    Boid.update b =
      { position := b.position.add ((b.velocity.add b.acceleration).limit MAX_SPEED)
        velocity := (b.velocity.add b.acceleration).limit MAX_SPEED
        acceleration := ⟨0, 0⟩
        size := b.size
        color := b.color } := by
  unfold Boid.update
  simp [Vec.mult]

theorem sepStep_snd_mono (self : Boid) (acc : Vec × ℕ) (o : Boid) :
    acc.2 ≤ (Boid.sepStep self acc o).2 := by
  unfold Boid.sepStep
  dsimp only
  split_ifs <;> simp

theorem sepStep_snd_lt (self : Boid) (acc : Vec × ℕ) (o : Boid)
    (h : Vec.dist self.position o.position < self.size * 6) :
    acc.2 < (Boid.sepStep self acc o).2 := by
  unfold Boid.sepStep
  dsimp only
  rw [if_pos h]
  exact Nat.lt_succ_self _

theorem sepStep_id (self : Boid) (acc : Vec × ℕ) (o : Boid)
    (h : ¬ Vec.dist self.position o.position < self.size * 6) :
    Boid.sepStep self acc o = acc := by
  unfold Boid.sepStep
  dsimp only
  exact if_neg h

theorem aliStep_snd_mono (percep : ℝ) (self : Boid) (acc : Vec × ℕ) (o : Boid) :
    acc.2 ≤ (Boid.aliStep percep self acc o).2 := by
  unfold Boid.aliStep
  split_ifs <;> simp

theorem aliStep_snd_lt (percep : ℝ) (self : Boid) (acc : Vec × ℕ) (o : Boid)
    (h : Vec.dist self.position o.position < percep) :
    acc.2 < (Boid.aliStep percep self acc o).2 := by
  unfold Boid.aliStep
  rw [if_pos h]
  exact Nat.lt_succ_self _

theorem aliStep_id (percep : ℝ) (self : Boid) (acc : Vec × ℕ) (o : Boid)
    (h : ¬ Vec.dist self.position o.position < percep) :
    Boid.aliStep percep self acc o = acc := by
  unfold Boid.aliStep
  exact if_neg h

theorem cohStep_snd_mono (percep : ℝ) (self : Boid) (acc : Vec × ℕ) (o : Boid) :
    acc.2 ≤ (Boid.cohStep percep self acc o).2 := by
  unfold Boid.cohStep
  split_ifs <;> simp

theorem cohStep_snd_lt (percep : ℝ) (self : Boid) (acc : Vec × ℕ) (o : Boid)
    (h : Vec.dist self.position o.position < percep) :
    acc.2 < (Boid.cohStep percep self acc o).2 := by
  unfold Boid.cohStep
  rw [if_pos h]
  exact Nat.lt_succ_self _

theorem cohStep_id (percep : ℝ) (self : Boid) (acc : Vec × ℕ) (o : Boid)
    (h : ¬ Vec.dist self.position o.position < percep) :
    Boid.cohStep percep self acc o = acc := by
  unfold Boid.cohStep
  exact if_neg h

theorem MAX_FORCE_nonneg : (0 : ℝ) ≤ MAX_FORCE := by norm_num [MAX_FORCE]

/-- C2: for each of the three steering rules, the result has magnitude at
most MAX_FORCE when at least one other boid is inside the range of the
rule (size * 6 for separation, the perception radius for alignment and
cohesion), and the result is exactly the zero vector when no other boid
is inside the range. -/
theorem c2_steering_bounded_or_zero (percep : ℝ) (self : Boid) (others : List Boid) :
    ((∃ o ∈ others, Vec.dist self.position o.position < self.size * 6) →
      (Boid.separation self others).mag ≤ MAX_FORCE) ∧
    ((∀ o ∈ others, ¬ Vec.dist self.position o.position < self.size * 6) →
      Boid.separation self others = ⟨0, 0⟩) ∧
    ((∃ o ∈ others, Vec.dist self.position o.position < percep) →
      (Boid.alignment percep self others).mag ≤ MAX_FORCE) ∧
    ((∀ o ∈ others, ¬ Vec.dist self.position o.position < percep) →
      Boid.alignment percep self others = ⟨0, 0⟩) ∧
    ((∃ o ∈ others, Vec.dist self.position o.position < percep) →
      (Boid.cohesion percep self others).mag ≤ MAX_FORCE) ∧
    ((∀ o ∈ others, ¬ Vec.dist self.position o.position < percep) →
      Boid.cohesion percep self others = ⟨0, 0⟩) := by
  refine ⟨?_, ?_, ?_, ?_, ?_, ?_⟩
  · intro h
    have hpos : 0 < (Boid.sepScan self others).2 := by
      unfold Boid.sepScan
      exact foldl_snd_pos (Boid.sepStep self)
        (fun o => Vec.dist self.position o.position < self.size * 6)
        (sepStep_snd_mono self) (sepStep_snd_lt self) others (⟨0, 0⟩, 0) h
    unfold Boid.separation
    rw [if_pos hpos]
    exact Vec.mag_limit_le _ MAX_FORCE_nonneg
  · intro h
    have hz : Boid.sepScan self others = (⟨0, 0⟩, 0) := by
      unfold Boid.sepScan
      exact foldl_id_of_none (Boid.sepStep self)
        (fun o => Vec.dist self.position o.position < self.size * 6)
        (sepStep_id self) others (⟨0, 0⟩, 0) h
    unfold Boid.separation
    rw [hz]
    simp
  · intro h
    have hpos : 0 < (Boid.aliScan percep self others).2 := by
      unfold Boid.aliScan
      exact foldl_snd_pos (Boid.aliStep percep self)
        (fun o => Vec.dist self.position o.position < percep)
        (aliStep_snd_mono percep self) (aliStep_snd_lt percep self) others (⟨0, 0⟩, 0) h
    unfold Boid.alignment
    rw [if_pos hpos]
    exact Vec.mag_limit_le _ MAX_FORCE_nonneg
  · intro h
    have hz : Boid.aliScan percep self others = (⟨0, 0⟩, 0) := by
      unfold Boid.aliScan
      exact foldl_id_of_none (Boid.aliStep percep self)
        (fun o => Vec.dist self.position o.position < percep)
        (aliStep_id percep self) others (⟨0, 0⟩, 0) h
    unfold Boid.alignment
    rw [hz]
    simp
  · intro h
    have hpos : 0 < (Boid.cohScan percep self others).2 := by
      unfold Boid.cohScan
      exact foldl_snd_pos (Boid.cohStep percep self)
        (fun o => Vec.dist self.position o.position < percep)
        (cohStep_snd_mono percep self) (cohStep_snd_lt percep self) others (⟨0, 0⟩, 0) h
    unfold Boid.cohesion
    rw [if_pos hpos]
    exact Vec.mag_limit_le _ MAX_FORCE_nonneg
  · intro h
    have hz : Boid.cohScan percep self others = (⟨0, 0⟩, 0) := by
      unfold Boid.cohScan
      exact foldl_id_of_none (Boid.cohStep percep self)
        (fun o => Vec.dist self.position o.position < percep)
        (cohStep_id percep self) others (⟨0, 0⟩, 0) h
    unfold Boid.cohesion
    rw [hz]
    simp

/-- Magnitude of a concrete vector, given the square of the claimed value. -/
theorem Vec.mag_eval {x y m : ℝ} (hm : 0 ≤ m) (h : x * x + y * y = m ^ 2) :
    Vec.mag ⟨x, y⟩ = m := by
  unfold Vec.mag
  dsimp only
  rw [h, Real.sqrt_sq hm]

/-- Distance of concrete vectors, given the square of the claimed value. -/
theorem Vec.dist_eval {a b : Vec} {m : ℝ} (hm : 0 ≤ m)
    (h : (a.x - b.x) ^ 2 + (a.y - b.y) ^ 2 = m ^ 2) : Vec.dist a b = m := by
  unfold Vec.dist
  rw [h, Real.sqrt_sq hm]

/-- Evaluation of setMag through a known positive magnitude. -/
theorem Vec.setMag_eval {v : Vec} {c : ℝ} (h : v.mag = c) (hc : 0 < c) (m : ℝ) :
    v.setMag m = (v.div c).mult m := by
  unfold Vec.setMag Vec.normalize
  rw [h, if_pos hc]

/-- Evaluation of limit when the known magnitude exceeds the bound. -/
theorem Vec.limit_eval_hi {v : Vec} {c mx : ℝ} (h : v.mag = c) (hgt : mx < c)
    (hc : 0 < c) : v.limit mx = (v.div c).mult mx := by
  unfold Vec.limit
  rw [h, if_pos hgt]
  exact Vec.setMag_eval h hc mx

/-- Evaluation of limit when the known magnitude is within the bound. -/
theorem Vec.limit_eval_lo {v : Vec} {c mx : ℝ} (h : v.mag = c) (hle : c ≤ mx) :
    v.limit mx = v := by
  unfold Vec.limit
  rw [h, if_neg (not_lt.mpr hle)]

/-- Modelled from the words of the specification: the other boids at
distance below desiredSeparation = size * 6. -/
noncomputable def sepNear (self : Boid) (others : List Boid) : List Boid :=
  others.filter (fun o => decide (Vec.dist self.position o.position < self.size * 6))

/-- Modelled from the words of the specification: the per-neighbor
separation contribution (self.position - neighbor.position) divided by the
squared distance. -/
noncomputable def sepContribution (self : Boid) (o : Boid) : Vec :=
  (self.position.sub o.position).div
    (Vec.dist self.position o.position * Vec.dist self.position o.position)

/-- Reference separation computation following the words of the
specification: sum the contributions of the neighbors below the desired
separation; with a positive count, divide by the count, rescale to
MAX_SPEED, subtract the velocity and clamp to MAX_FORCE; with zero
neighbors return the zero vector. -/
noncomputable def separationSpec (self : Boid) (others : List Boid) : Vec :=
  let near := sepNear self others
  let steering := (near.map (sepContribution self)).foldl Vec.add ⟨0, 0⟩
  if 0 < near.length then
    ((((steering.div (near.length : ℝ)).setMag MAX_SPEED).sub self.velocity).limit MAX_FORCE)
  else ⟨0, 0⟩

/-- The separation loop computes the filtered sum and the filtered count. -/
theorem sepScan_foldl_eq (self : Boid) :
    ∀ (l : List Boid) (init : Vec × ℕ),
      l.foldl (Boid.sepStep self) init =
        (((sepNear self l).map (sepContribution self)).foldl Vec.add init.1,
          init.2 + (sepNear self l).length) := by
  intro l
  induction l with
  | nil => intro init; simp [sepNear]
  | cons o rest ih =>
      intro init
      by_cases hc : Vec.dist self.position o.position < self.size * 6
      · have hstep : Boid.sepStep self init o = (init.1.add (sepContribution self o), init.2 + 1) := by
          unfold Boid.sepStep sepContribution
          dsimp only
          rw [if_pos hc]
          rfl
        rw [List.foldl_cons, hstep, ih]
        unfold sepNear
        simp only [List.filter_cons, decide_eq_true_eq, hc, if_true, List.map_cons,
          List.foldl_cons, List.length_cons]
        refine Prod.ext ?_ ?_
        · rfl
        · dsimp only
          omega
      · have hstep : Boid.sepStep self init o = init := sepStep_id self init o hc
        rw [List.foldl_cons, hstep, ih]
        unfold sepNear
        simp only [List.filter_cons, decide_eq_true_eq, hc, if_false]

/-- Example agent of the specification: at the origin, at rest, size 2. -/
def exA : Boid := ⟨⟨0, 0⟩, ⟨0, 0⟩, ⟨0, 0⟩, 2, "hsl(0, 70%, 65%)"⟩

/-- Example agent of the specification: at distance 1 from the first, at
rest, size 2. -/
def exB : Boid := ⟨⟨1, 0⟩, ⟨0, 0⟩, ⟨0, 0⟩, 2, "hsl(120, 70%, 65%)"⟩

theorem exA_exB_dist : Vec.dist exA.position exB.position = 1 := by
  refine Vec.dist_eval (by norm_num) ?_
  show ((0 : ℝ) - 1) ^ 2 + ((0 : ℝ) - 0) ^ 2 = 1 ^ 2
  norm_num

/-- Concrete evaluation of the separation rule on the example pair. -/
theorem sep_example : Boid.separation exA [exB] = ⟨-(1 / 2), 0⟩ := by
  have hscan : Boid.sepScan exA [exB] = (⟨-1, 0⟩, 1) := by
    unfold Boid.sepScan
    rw [List.foldl_cons, List.foldl_nil]
    unfold Boid.sepStep
    dsimp only
    rw [exA_exB_dist, if_pos (by norm_num [exA] : (1 : ℝ) < exA.size * 6)]
    refine Prod.ext ?_ rfl
    show (Vec.mk 0 0).add ((((exA.position).copy.sub exB.position)).div (1 * 1)) = Vec.mk (-1) 0
    show (Vec.mk 0 0).add (((Vec.mk 0 0).sub (Vec.mk 1 0)).div (1 * 1)) = Vec.mk (-1) 0
    unfold Vec.add Vec.sub Vec.div
    norm_num
  have hmag1 : Vec.mag ⟨-1, 0⟩ = 1 := Vec.mag_eval (by norm_num) (by norm_num)
  have hmag5 : Vec.mag ⟨-5, 0⟩ = 5 := Vec.mag_eval (by norm_num) (by norm_num)
  unfold Boid.separation
  rw [hscan]
  dsimp only
  rw [if_pos (by norm_num)]
  have e1 : (Vec.mk (-1) 0).div ((1 : ℕ) : ℝ) = Vec.mk (-1) 0 := by
    unfold Vec.div
    norm_num
  rw [e1, Vec.setMag_eval hmag1 one_pos MAX_SPEED]
  have e2 : ((Vec.mk (-1) 0).div 1).mult MAX_SPEED = Vec.mk (-5) 0 := by
    unfold Vec.div Vec.mult
    norm_num [MAX_SPEED]
  rw [e2]
  have e3 : (Vec.mk (-5) 0).sub exA.velocity = Vec.mk (-5) 0 := by
    show (Vec.mk (-5) 0).sub (Vec.mk 0 0) = Vec.mk (-5) 0
    unfold Vec.sub
    norm_num
  rw [e3, Vec.limit_eval_hi hmag5 (by norm_num [MAX_FORCE]) (by norm_num)]
  unfold Vec.div Vec.mult
  norm_num [MAX_FORCE]

/-- C3: the separation rule coincides with the reference computation of
the specification, and on the documented example of two agents at rest at
distance 1 (desired separation 12) the separation steering of the first
agent is nonzero and is a positive multiple of the vector pointing from
the second agent toward the first. -/
theorem c3_separation_matches_reference :
    (∀ (self : Boid) (others : List Boid),
      Boid.separation self others = separationSpec self others) ∧
    Boid.separation exA [exB] = ⟨-(1 / 2), 0⟩ ∧
    Boid.separation exA [exB] ≠ ⟨0, 0⟩ ∧
    (∃ c : ℝ, 0 < c ∧
      Boid.separation exA [exB] = (exA.position.sub exB.position).mult c) := by
  refine ⟨?_, sep_example, ?_, ?_⟩
  · intro self others
    unfold Boid.separation separationSpec Boid.sepScan
    rw [sepScan_foldl_eq self others (⟨0, 0⟩, 0)]
    dsimp only
    simp only [Nat.zero_add]
    by_cases h : 0 < (sepNear self others).length
    · rw [if_pos h, if_pos h]
    · rw [if_neg h, if_neg h]
      have hlen : (sepNear self others).length = 0 := Nat.eq_zero_of_not_pos h
      rw [List.length_eq_zero.mp hlen]
      rfl
  · rw [sep_example]
    intro hcontra
    have : (-(1 / 2) : ℝ) = 0 := congrArg Vec.x hcontra
    norm_num at this
  · refine ⟨1 / 2, by norm_num, ?_⟩
    rw [sep_example]
    show Vec.mk (-(1 / 2)) 0 = ((Vec.mk 0 0).sub (Vec.mk 1 0)).mult (1 / 2)
    unfold Vec.sub Vec.mult
    norm_num

/-- Witness for C2 on concrete agents: one neighbor inside the separation
range bounds the separation steering, and with perception radius 1 the
same neighbor is out of range for alignment and cohesion, which return the
zero vector. -/
theorem c2_steering_bounded_or_zero_witness :
    (Boid.separation exA [exB]).mag ≤ MAX_FORCE ∧
    Boid.alignment 1 exA [exB] = ⟨0, 0⟩ ∧
    Boid.cohesion 1 exA [exB] = ⟨0, 0⟩ := by
  have h := c2_steering_bounded_or_zero 1 exA [exB]
  have hout : ∀ o ∈ [exB], ¬ Vec.dist exA.position o.position < 1 := by
    intro o ho
    rw [List.mem_singleton.mp ho, exA_exB_dist]
    norm_num
  refine ⟨h.1 ⟨exB, List.mem_singleton_self exB, ?_⟩, h.2.2.2.1 hout, h.2.2.2.2.2 hout⟩
  rw [exA_exB_dist]
  norm_num [exA]

theorem Vec.mult_mult (v : Vec) (a b : ℝ) : (v.mult a).mult b = v.mult (a * b) := by
  unfold Vec.mult
  dsimp only
  rw [mul_assoc, mul_assoc]

theorem Vec.mult_one (v : Vec) : v.mult 1 = v := by
  unfold Vec.mult
  simp

theorem Vec.dot_mult_left (v w : Vec) (r : ℝ) : Vec.dot (v.mult r) w = r * Vec.dot v w := by
  unfold Vec.dot Vec.mult
  dsimp only
  ring

theorem Vec.dot_self (v : Vec) : Vec.dot v v = v.mag ^ 2 := by
  unfold Vec.dot Vec.mag
  rw [Real.sq_sqrt]
  nlinarith [sq_nonneg v.x, sq_nonneg v.y]

theorem Vec.mag_sub (a b : Vec) : (a.sub b).mag = Vec.dist b a := by
  unfold Vec.sub Vec.mag Vec.dist
  dsimp only
  congr 1
  ring

/-- Limiting a vector of known positive magnitude rescales it by some
positive factor. -/
theorem Vec.limit_as_mult {v : Vec} {c : ℝ} (h : v.mag = c) (hc : 0 < c)
    {mx : ℝ} (hmx : 0 < mx) : ∃ t : ℝ, 0 < t ∧ v.limit mx = v.mult t := by
  unfold Vec.limit
  rw [h]
  split_ifs with hgt
  · refine ⟨c⁻¹ * mx, by positivity, ?_⟩
    unfold Vec.setMag Vec.normalize
    rw [h, if_pos hc, Vec.div_eq_mult, Vec.mult_mult]
  · exact ⟨1, one_pos, (Vec.mult_one v).symm⟩

/-- Kind of an orb, attractor or repulsor. -/
inductive OrbType
  | attractor
  | repulsor
deriving DecidableEq

/-- Orb record of the source: position, radius, type and color. -/
structure Orb where
  position : Vec
  radius : ℝ
  type : OrbType
  color : String

/-- Force expression of Boid.applyOrbForces: the normalized direction from
the boid toward the orb, scaled by ORB_STRENGTH / d for an attractor and
by -ORB_STRENGTH / d for a repulsor, clamped to MAX_FORCE. -/
noncomputable def Boid.orbForce (b : Boid) (orb : Orb) : Vec :=
  ((((orb.position.copy).sub b.position).normalize).mult
    (if orb.type = OrbType.attractor
      then ORB_STRENGTH / Vec.dist b.position orb.position
      else -ORB_STRENGTH / Vec.dist b.position orb.position)).limit MAX_FORCE

/-- Loop body of Boid.applyOrbForces: when the distance to the orb is
above 1 and below two perception radii, add the orb force into the
acceleration; otherwise leave the boid untouched. -/
noncomputable def Boid.orbStep (percep : ℝ) (b : Boid) (orb : Orb) : Boid :=
  let d := Vec.dist b.position orb.position
  if d > 1 ∧ d < percep * 2 then
    { b with acceleration := b.acceleration.add (Boid.orbForce b orb) }
  else b

/-- Boid.applyOrbForces of the source, iterating over the orbs. -/
noncomputable def Boid.applyOrbForces (percep : ℝ) (self : Boid) (orbs : List Orb) : Boid :=
  orbs.foldl (Boid.orbStep percep) self

/-- Attractor orb at distance exactly 1 from the example agent. -/
def orbAt1 : Orb := ⟨⟨1, 0⟩, 10, OrbType.attractor, "rgba(0, 100, 255, 0.5)"⟩

/-- Counterexample to C4 as stated: with the default perception radius 50,
an attractor orb at distance exactly 1 lies inside the claimed inclusive
range [1, 100), yet applyOrbForces leaves the agent completely unchanged,
because the source tests d > 1 strictly. -/
theorem c4_counterexample :
    Vec.dist exA.position orbAt1.position = 1 ∧
    (1 : ℝ) ≤ 1 ∧ (1 : ℝ) < 50 * 2 ∧
    Boid.applyOrbForces 50 exA [orbAt1] = exA := by
  have hd : Vec.dist exA.position orbAt1.position = 1 := by
    refine Vec.dist_eval (by norm_num) ?_
    show ((0 : ℝ) - 1) ^ 2 + ((0 : ℝ) - 0) ^ 2 = 1 ^ 2
    norm_num
  refine ⟨hd, by norm_num, by norm_num, ?_⟩
  unfold Boid.applyOrbForces
  rw [List.foldl_cons, List.foldl_nil]
  unfold Boid.orbStep
  dsimp only
  rw [hd, if_neg (by norm_num)]

theorem Vec.copy_eq (v : Vec) : v.copy = v := rfl

theorem ORB_STRENGTH_pos : (0 : ℝ) < ORB_STRENGTH := by norm_num [ORB_STRENGTH]

theorem MAX_FORCE_pos : (0 : ℝ) < MAX_FORCE := by norm_num [MAX_FORCE]

/-- Sign of the dot product of the orb force with the direction toward the
orb: positive for an attractor, negative for a repulsor, whenever the
distance exceeds 1. -/
theorem orbForce_dot (self : Boid) (orb : Orb)
    (hd : 1 < Vec.dist self.position orb.position) :
    (orb.type = OrbType.attractor →
      0 < Vec.dot (Boid.orbForce self orb) (orb.position.sub self.position)) ∧
    (orb.type = OrbType.repulsor →
      Vec.dot (Boid.orbForce self orb) (orb.position.sub self.position) < 0) := by
  have hd0 : 0 < Vec.dist self.position orb.position := lt_trans one_pos hd
  have hu : (orb.position.sub self.position).mag = Vec.dist self.position orb.position :=
    Vec.mag_sub _ _
  have hnorm : (orb.position.sub self.position).normalize
      = (orb.position.sub self.position).mult (Vec.dist self.position orb.position)⁻¹ := by
    unfold Vec.normalize
    rw [hu, if_pos hd0, Vec.div_eq_mult]
  constructor
  · intro htype
    have hforce : Boid.orbForce self orb
        = ((((orb.position.sub self.position).mult (Vec.dist self.position orb.position)⁻¹).mult
            (ORB_STRENGTH / Vec.dist self.position orb.position)).limit MAX_FORCE) := by
      unfold Boid.orbForce
      rw [Vec.copy_eq, if_pos htype, hnorm]
    have hs : 0 < ORB_STRENGTH / Vec.dist self.position orb.position :=
      div_pos ORB_STRENGTH_pos hd0
    have hmagv : (((orb.position.sub self.position).mult
        (Vec.dist self.position orb.position)⁻¹).mult
          (ORB_STRENGTH / Vec.dist self.position orb.position)).mag
        = ORB_STRENGTH / Vec.dist self.position orb.position := by
      rw [Vec.mag_mult, Vec.mag_mult, hu, abs_of_pos hs,
        abs_of_pos (inv_pos.mpr hd0)]
      field_simp
    obtain ⟨t, ht, hlim⟩ := Vec.limit_as_mult hmagv hs MAX_FORCE_pos
    rw [hforce, hlim, Vec.mult_mult, Vec.mult_mult, Vec.dot_mult_left, Vec.dot_self, hu]
    have := mul_pos (mul_pos (inv_pos.mpr hd0) (mul_pos hs ht))
      (pow_pos hd0 2)
    linarith
  · intro htype
    have htype2 : ¬ orb.type = OrbType.attractor := by
      rw [htype]
      intro hcontra
      cases hcontra
    have hforce : Boid.orbForce self orb
        = ((((orb.position.sub self.position).mult (Vec.dist self.position orb.position)⁻¹).mult
            (-ORB_STRENGTH / Vec.dist self.position orb.position)).limit MAX_FORCE) := by
      unfold Boid.orbForce
      rw [Vec.copy_eq, if_neg htype2, hnorm]
    have hs : -ORB_STRENGTH / Vec.dist self.position orb.position < 0 :=
      div_neg_of_neg_of_pos (by linarith [ORB_STRENGTH_pos]) hd0
    have habs : |(-ORB_STRENGTH / Vec.dist self.position orb.position)|
        = ORB_STRENGTH / Vec.dist self.position orb.position := by
      rw [abs_div, abs_neg, abs_of_pos ORB_STRENGTH_pos, abs_of_pos hd0]
    have hmagv : (((orb.position.sub self.position).mult
        (Vec.dist self.position orb.position)⁻¹).mult
          (-ORB_STRENGTH / Vec.dist self.position orb.position)).mag
        = ORB_STRENGTH / Vec.dist self.position orb.position := by
      rw [Vec.mag_mult, Vec.mag_mult, hu, habs, abs_of_pos (inv_pos.mpr hd0)]
      field_simp
    obtain ⟨t, ht, hlim⟩ :=
      Vec.limit_as_mult hmagv (div_pos ORB_STRENGTH_pos hd0) MAX_FORCE_pos
    rw [hforce, hlim, Vec.mult_mult, Vec.mult_mult, Vec.dot_mult_left, Vec.dot_self, hu]
    have h1 : -ORB_STRENGTH / Vec.dist self.position orb.position * t < 0 :=
      mul_neg_of_neg_of_pos hs ht
    have h2 : (Vec.dist self.position orb.position)⁻¹
        * (-ORB_STRENGTH / Vec.dist self.position orb.position * t) < 0 :=
      mul_neg_of_pos_of_neg (inv_pos.mpr hd0) h1
    have h3 := mul_neg_of_neg_of_pos h2 (pow_pos hd0 2)
    linarith

/-- C4 as amended: the lower distance bound of the orb force range is
strict (the source tests d greater than 1), the upper bound is two
perception radii; inside the open range the force added to the
acceleration is the unit direction toward the orb scaled by
ORB_STRENGTH / d for an attractor and by -ORB_STRENGTH / d for a
repulsor, clamped to MAX_FORCE; the force of an attractor has positive
dot product with the direction to the orb and the force of a repulsor a
negative one; outside the range, including at distance exactly 1 and
beyond two perception radii, the agent is unchanged. -/
theorem c4_orb_force_corrected (percep : ℝ) (self : Boid) (orb : Orb) :
    (¬ (1 < Vec.dist self.position orb.position ∧
          Vec.dist self.position orb.position < percep * 2) →
      Boid.applyOrbForces percep self [orb] = self) ∧
    ((1 < Vec.dist self.position orb.position ∧
        Vec.dist self.position orb.position < percep * 2) →
      Boid.applyOrbForces percep self [orb]
        = { self with acceleration := (self.acceleration.add
            ((((orb.position.sub self.position).normalize).mult
              (if orb.type = OrbType.attractor
                then ORB_STRENGTH / Vec.dist self.position orb.position
                else -ORB_STRENGTH / Vec.dist self.position orb.position)).limit
              MAX_FORCE)) }) ∧
    ((1 < Vec.dist self.position orb.position ∧
        Vec.dist self.position orb.position < percep * 2) →
      orb.type = OrbType.attractor →
      0 < Vec.dot (Boid.orbForce self orb) (orb.position.sub self.position)) ∧
    ((1 < Vec.dist self.position orb.position ∧
        Vec.dist self.position orb.position < percep * 2) →
      orb.type = OrbType.repulsor →
      Vec.dot (Boid.orbForce self orb) (orb.position.sub self.position) < 0) := by
  refine ⟨?_, ?_, ?_, ?_⟩
  · intro h
    unfold Boid.applyOrbForces
    rw [List.foldl_cons, List.foldl_nil]
    unfold Boid.orbStep
    dsimp only
    rw [if_neg h]
  · intro h
    unfold Boid.applyOrbForces
    rw [List.foldl_cons, List.foldl_nil]
    unfold Boid.orbStep
    dsimp only
    rw [if_pos h]
    unfold Boid.orbForce
    rw [Vec.copy_eq]
  · intro h htype
    exact (orbForce_dot self orb h.1).1 htype
  · intro h htype
    exact (orbForce_dot self orb h.1).2 htype

/-- Attractor orb far away from the example agent. -/
def orbFar : Orb := ⟨⟨200, 0⟩, 10, OrbType.attractor, "rgba(0, 100, 255, 0.5)"⟩

/-- Attractor orb at distance 4 from the example agent. -/
def orbAttr : Orb := ⟨⟨4, 0⟩, 10, OrbType.attractor, "rgba(0, 100, 255, 0.5)"⟩

/-- Repulsor orb at distance 4 from the example agent. -/
def orbRep : Orb := ⟨⟨0, 4⟩, 10, OrbType.repulsor, "rgba(255, 0, 0, 0.5)"⟩

theorem dist_exA_orbFar : Vec.dist exA.position orbFar.position = 200 := by
  refine Vec.dist_eval (by norm_num) ?_
  show ((0 : ℝ) - 200) ^ 2 + ((0 : ℝ) - 0) ^ 2 = 200 ^ 2
  norm_num

theorem dist_exA_orbAttr : Vec.dist exA.position orbAttr.position = 4 := by
  refine Vec.dist_eval (by norm_num) ?_
  show ((0 : ℝ) - 4) ^ 2 + ((0 : ℝ) - 0) ^ 2 = 4 ^ 2
  norm_num

theorem dist_exA_orbRep : Vec.dist exA.position orbRep.position = 4 := by
  refine Vec.dist_eval (by norm_num) ?_
  show ((0 : ℝ) - 0) ^ 2 + ((0 : ℝ) - 4) ^ 2 = 4 ^ 2
  norm_num

/-- Witness for the amended C4 at concrete inputs: a far attractor leaves
the agent unchanged, an attractor at distance 4 adds exactly the clamped
scaled direction, with positive dot product toward the orb, and a
repulsor at distance 4 yields a negative dot product. -/
theorem c4_orb_force_corrected_witness :
    Boid.applyOrbForces 50 exA [orbFar] = exA ∧
    Boid.applyOrbForces 50 exA [orbAttr]
      = { exA with acceleration := (exA.acceleration.add
          ((((orbAttr.position.sub exA.position).normalize).mult
            (if orbAttr.type = OrbType.attractor
              then ORB_STRENGTH / Vec.dist exA.position orbAttr.position
              else -ORB_STRENGTH / Vec.dist exA.position orbAttr.position)).limit
            MAX_FORCE)) } ∧
    0 < Vec.dot (Boid.orbForce exA orbAttr) (orbAttr.position.sub exA.position) ∧
    Vec.dot (Boid.orbForce exA orbRep) (orbRep.position.sub exA.position) < 0 :=
  ⟨(c4_orb_force_corrected 50 exA orbFar).1
      (by rw [dist_exA_orbFar]; norm_num),
    (c4_orb_force_corrected 50 exA orbAttr).2.1
      (by rw [dist_exA_orbAttr]; norm_num),
    (c4_orb_force_corrected 50 exA orbAttr).2.2.1
      (by rw [dist_exA_orbAttr]; norm_num) rfl,
    (c4_orb_force_corrected 50 exA orbRep).2.2.2
      (by rw [dist_exA_orbRep]; norm_num) rfl⟩

/-- Boid.edges of the source. In wrap mode a coordinate beyond the canvas
extent is teleported to the opposite edge with the velocity untouched; in
bounce mode it is placed just inside the crossed boundary and the matching
velocity component is multiplied by -1. The x and y checks are
independent, as in the source. -/
noncomputable def Boid.edges (width height : ℝ) (wrap : Bool) (b : Boid) : Boid :=
  if wrap then
    { b with position :=
        ⟨if b.position.x > width then 0
          else if b.position.x < 0 then width else b.position.x,
          if b.position.y > height then 0
          else if b.position.y < 0 then height else b.position.y⟩ }
  else
    let xpair :=
      if b.position.x > width then (width - 1, b.velocity.x * (-1))
      else if b.position.x < 0 then (1, b.velocity.x * (-1))
      else (b.position.x, b.velocity.x)
    let ypair :=
      if b.position.y > height then (height - 1, b.velocity.y * (-1))
      else if b.position.y < 0 then (1, b.velocity.y * (-1))
      else (b.position.y, b.velocity.y)
    { b with position := ⟨xpair.1, ypair.1⟩, velocity := ⟨xpair.2, ypair.2⟩ }

/-- C6: wrap mode teleports a coordinate beyond an extent to the opposite
edge of a nonnegative canvas, leaves in-range coordinates alone, never
touches velocity, acceleration, size or color, and leaves an agent that is
inside the bounds completely unchanged. -/
theorem c6_wrap_edges (w h : ℝ) (b : Boid) (hw : 0 ≤ w) (hh : 0 ≤ h) :
    (Boid.edges w h true b).velocity = b.velocity ∧
    (Boid.edges w h true b).acceleration = b.acceleration ∧
    (Boid.edges w h true b).size = b.size ∧
    (Boid.edges w h true b).color = b.color ∧
    (b.position.x > w → (Boid.edges w h true b).position.x = 0) ∧
    (b.position.x < 0 → (Boid.edges w h true b).position.x = w) ∧
    (0 ≤ b.position.x → b.position.x ≤ w →
      (Boid.edges w h true b).position.x = b.position.x) ∧
    (b.position.y > h → (Boid.edges w h true b).position.y = 0) ∧
    (b.position.y < 0 → (Boid.edges w h true b).position.y = h) ∧
    (0 ≤ b.position.y → b.position.y ≤ h →
      (Boid.edges w h true b).position.y = b.position.y) ∧
    (0 ≤ b.position.x → b.position.x ≤ w → 0 ≤ b.position.y → b.position.y ≤ h →
      Boid.edges w h true b = b) := by
  unfold Boid.edges
  rw [if_pos rfl]
  refine ⟨rfl, rfl, rfl, rfl, ?_, ?_, ?_, ?_, ?_, ?_, ?_⟩
  · intro hx
    dsimp only
    rw [if_pos hx]
  · intro hx
    dsimp only
    rw [if_neg (by linarith : ¬ b.position.x > w), if_pos hx]
  · intro hx0 hxw
    dsimp only
    rw [if_neg (not_lt.mpr hxw), if_neg (not_lt.mpr hx0)]
  · intro hy
    dsimp only
    rw [if_pos hy]
  · intro hy
    dsimp only
    rw [if_neg (by linarith : ¬ b.position.y > h), if_pos hy]
  · intro hy0 hyh
    dsimp only
    rw [if_neg (not_lt.mpr hyh), if_neg (not_lt.mpr hy0)]
  · intro hx0 hxw hy0 hyh
    rw [if_neg (not_lt.mpr hxw), if_neg (not_lt.mpr hx0),
      if_neg (not_lt.mpr hyh), if_neg (not_lt.mpr hy0)]

/-- Agent outside the canvas on two sides, used as edges witness. -/
def bOut : Boid := ⟨⟨150, -3⟩, ⟨2, 3⟩, ⟨0, 0⟩, 2, "hsl(240, 70%, 65%)"⟩

/-- Witness for C6 at a concrete canvas and agents: an agent beyond the
right edge and below the top edge is teleported to x = 0 and y = height
with unchanged velocity, and an agent inside the bounds is unchanged. -/
theorem c6_wrap_edges_witness :
    (Boid.edges 100 100 true bOut).position.x = 0 ∧
    (Boid.edges 100 100 true bOut).position.y = 100 ∧
    (Boid.edges 100 100 true bOut).velocity = bOut.velocity ∧
    Boid.edges 100 100 true exA = exA := by
  have h1 := c6_wrap_edges 100 100 bOut (by norm_num) (by norm_num)
  have h2 := c6_wrap_edges 100 100 exA (by norm_num) (by norm_num)
  exact ⟨h1.2.2.2.2.1 (by norm_num [bOut]),
    h1.2.2.2.2.2.2.2.2.1 (by norm_num [bOut]),
    h1.1,
    h2.2.2.2.2.2.2.2.2.2.2 (by norm_num [exA]) (by norm_num [exA])
      (by norm_num [exA]) (by norm_num [exA])⟩

/-- C7: bounce mode repositions a coordinate beyond an extent just inside
the crossed boundary (width - 1 or height - 1 past the far edge, 1 past
the near edge) and negates the matching velocity component; in-range
coordinates and their velocity components, the acceleration, the size and
the color are unchanged. -/
theorem c7_bounce_edges (w h : ℝ) (b : Boid) (hw : 0 ≤ w) (hh : 0 ≤ h) :
    (Boid.edges w h false b).acceleration = b.acceleration ∧
    (Boid.edges w h false b).size = b.size ∧
    (Boid.edges w h false b).color = b.color ∧
    (b.position.x > w → (Boid.edges w h false b).position.x = w - 1 ∧
      (Boid.edges w h false b).velocity.x = -b.velocity.x) ∧
    (b.position.x < 0 → (Boid.edges w h false b).position.x = 1 ∧
      (Boid.edges w h false b).velocity.x = -b.velocity.x) ∧
    (0 ≤ b.position.x → b.position.x ≤ w →
      (Boid.edges w h false b).position.x = b.position.x ∧
      (Boid.edges w h false b).velocity.x = b.velocity.x) ∧
    (b.position.y > h → (Boid.edges w h false b).position.y = h - 1 ∧
      (Boid.edges w h false b).velocity.y = -b.velocity.y) ∧
    (b.position.y < 0 → (Boid.edges w h false b).position.y = 1 ∧
      (Boid.edges w h false b).velocity.y = -b.velocity.y) ∧
    (0 ≤ b.position.y → b.position.y ≤ h →
      (Boid.edges w h false b).position.y = b.position.y ∧
      (Boid.edges w h false b).velocity.y = b.velocity.y) := by
  unfold Boid.edges
  rw [if_neg (by simp : ¬ (false : Bool) = true)]
  dsimp only
  refine ⟨rfl, rfl, rfl, ?_, ?_, ?_, ?_, ?_, ?_⟩
  · intro hx
    rw [if_pos hx]
    exact ⟨rfl, by dsimp only; ring⟩
  · intro hx
    rw [if_neg (by linarith : ¬ b.position.x > w), if_pos hx]
    exact ⟨rfl, by dsimp only; ring⟩
  · intro hx0 hxw
    rw [if_neg (not_lt.mpr hxw), if_neg (not_lt.mpr hx0)]
    exact ⟨rfl, rfl⟩
  · intro hy
    rw [if_pos hy]
    exact ⟨rfl, by dsimp only; ring⟩
  · intro hy
    rw [if_neg (by linarith : ¬ b.position.y > h), if_pos hy]
    exact ⟨rfl, by dsimp only; ring⟩
  · intro hy0 hyh
    rw [if_neg (not_lt.mpr hyh), if_neg (not_lt.mpr hy0)]
    exact ⟨rfl, rfl⟩

/-- Witness for C7 at a concrete canvas and agent: beyond the right edge
the agent is placed at width - 1 with negated x velocity, below the top
edge at y = 1 with negated y velocity, and the acceleration is kept. -/
theorem c7_bounce_edges_witness :
    (Boid.edges 100 100 false bOut).position.x = 100 - 1 ∧
    (Boid.edges 100 100 false bOut).velocity.x = -bOut.velocity.x ∧
    (Boid.edges 100 100 false bOut).position.y = 1 ∧
    (Boid.edges 100 100 false bOut).velocity.y = -bOut.velocity.y ∧
    (Boid.edges 100 100 false bOut).acceleration = bOut.acceleration := by
  have h1 := c7_bounce_edges 100 100 bOut (by norm_num) (by norm_num)
  obtain ⟨hxp, hxv⟩ := h1.2.2.2.1 (by norm_num [bOut])
  obtain ⟨hyp, hyv⟩ := h1.2.2.2.2.2.2.2.1 (by norm_num [bOut])
  exact ⟨hxp, hxv, hyp, hyv, h1.1⟩

/-- Mousedown handler of the source: the canvas-relative coordinates are
the client coordinates minus the offsets of the bounding rectangle;
button 2 appends an attractor orb, button 0 appends a repulsor orb and
any other button appends nothing. -/
def mousedown (orbs : List Orb) (button : ℕ) (clientX clientY rectLeft rectTop : ℝ) :
    List Orb :=
  let mouseX := clientX - rectLeft
  let mouseY := clientY - rectTop
  if button = 2 then
    orbs ++ [⟨⟨mouseX, mouseY⟩, ORB_RADIUS, OrbType.attractor, "rgba(0, 100, 255, 0.5)"⟩]
  else if button = 0 then
    orbs ++ [⟨⟨mouseX, mouseY⟩, ORB_RADIUS, OrbType.repulsor, "rgba(255, 0, 0, 0.5)"⟩]
  else orbs

/-- Event state seen by a handler, reduced to the default-action flag. -/
structure EventState where
  defaultPrevented : Bool

/-- Contextmenu handler of the source: its only statement calls
preventDefault on the event. -/
def contextmenu (e : EventState) : EventState := { e with defaultPrevented := true }

/-- C9: a primary-button press (code 0) appends a repulsor orb at the
canvas-relative pointer coordinates, a secondary-button press (code 2)
appends an attractor orb there, any other button leaves the orb list
unchanged, and the contextmenu handler suppresses the default action. -/
theorem c9_pointer_orbs (orbs : List Orb) (button : ℕ) (cx cy rl rt : ℝ) :
    (mousedown orbs 0 cx cy rl rt
      = orbs ++ [⟨⟨cx - rl, cy - rt⟩, ORB_RADIUS, OrbType.repulsor,
          "rgba(255, 0, 0, 0.5)"⟩]) ∧
    (mousedown orbs 2 cx cy rl rt
      = orbs ++ [⟨⟨cx - rl, cy - rt⟩, ORB_RADIUS, OrbType.attractor,
          "rgba(0, 100, 255, 0.5)"⟩]) ∧
    (button ≠ 0 → button ≠ 2 → mousedown orbs button cx cy rl rt = orbs) ∧
    (∀ e : EventState, (contextmenu e).defaultPrevented = true) := by
  refine ⟨rfl, rfl, ?_, fun e => rfl⟩
  intro h0 h2
  unfold mousedown
  rw [if_neg h2, if_neg h0]

/-- Witness for C9: a middle-button press (code 1) appends no orb. -/
theorem c9_pointer_orbs_witness : mousedown [] 1 5 6 1 2 = [] :=
  (c9_pointer_orbs [] 1 5 6 1 2).2.2.1 (by decide) (by decide)

/-- Division with an explicit failure on a zero divisor; in the source a
zero divisor in Vector.div is the one way the separation rule can produce
non-finite components. -/
noncomputable def Vec.divChecked (v : Vec) (s : ℝ) : Option Vec :=
  if s = 0 then none else some (v.div s)

/-- Loop body of the separation rule with the unguarded per-neighbor
division by the squared distance replaced by the checked division; the
remaining divisions of the rule (by the count, and inside normalize) are
guarded in the source by the positive count branch and the positive
magnitude check and cannot fail. -/
noncomputable def Boid.sepStepChecked (self : Boid) (acc : Option (Vec × ℕ)) (other : Boid) :
    Option (Vec × ℕ) :=
  match acc with
  | none => none
  | some a =>
      let d := Vec.dist self.position other.position
      if d < self.size * 6 then
        match ((self.position.copy).sub other.position).divChecked (d * d) with
        | none => none
        | some diff => some (a.1.add diff, a.2 + 1)
      else some a

/-- Separation rule propagating a division failure as none. -/
noncomputable def Boid.separationChecked (self : Boid) (others : List Boid) : Option Vec :=
  match others.foldl (Boid.sepStepChecked self) (some (⟨0, 0⟩, 0)) with
  | none => none
  | some scan =>
      if scan.2 > 0 then
        some ((((scan.1.div (scan.2 : ℝ)).setMag MAX_SPEED).sub self.velocity).limit MAX_FORCE)
      else some scan.1

/-- The checked separation loop succeeds and computes the plain loop when
every neighbor inside the desired separation lies at positive distance. -/
theorem sepScanChecked_eq (self : Boid) :
    ∀ (l : List Boid),
      (∀ o ∈ l, Vec.dist self.position o.position < self.size * 6 →
        0 < Vec.dist self.position o.position) →
      ∀ (init : Vec × ℕ),
        l.foldl (Boid.sepStepChecked self) (some init)
          = some (l.foldl (Boid.sepStep self) init) := by
  intro l
  induction l with
  | nil => intro _ init; rfl
  | cons o rest ih =>
      intro h init
      have hrest : ∀ o ∈ rest, Vec.dist self.position o.position < self.size * 6 →
          0 < Vec.dist self.position o.position :=
        fun o ho => h o (List.mem_cons_of_mem _ ho)
      rw [List.foldl_cons, List.foldl_cons]
      by_cases hc : Vec.dist self.position o.position < self.size * 6
      · have hdpos : 0 < Vec.dist self.position o.position :=
          h o (List.mem_cons_self o rest) hc
        have hdd : Vec.dist self.position o.position * Vec.dist self.position o.position ≠ 0 :=
          ne_of_gt (mul_pos hdpos hdpos)
        have hstepc : Boid.sepStepChecked self (some init) o
            = some (init.1.add (((self.position.copy).sub o.position).div
                (Vec.dist self.position o.position * Vec.dist self.position o.position)),
                init.2 + 1) := by
          unfold Boid.sepStepChecked Vec.divChecked
          dsimp only
          rw [if_pos hc, if_neg hdd]
        have hstep : Boid.sepStep self init o
            = (init.1.add (((self.position.copy).sub o.position).div
                (Vec.dist self.position o.position * Vec.dist self.position o.position)),
                init.2 + 1) := by
          unfold Boid.sepStep
          dsimp only
          rw [if_pos hc]
        rw [hstepc, hstep]
        exact ih hrest _
      · have hstepc : Boid.sepStepChecked self (some init) o = some init := by
          unfold Boid.sepStepChecked
          dsimp only
          rw [if_neg hc]
        rw [hstepc, sepStep_id self init o hc]
        exact ih hrest init

/-- C10: under the precondition that every other agent inside the desired
separation lies at strictly positive distance, the separation rule with
failure-checked division succeeds and returns exactly the plain separation
vector, so no non-finite component can arise. -/
theorem c10_separation_finite (self : Boid) (others : List Boid)
    (h : ∀ o ∈ others, Vec.dist self.position o.position < self.size * 6 →
      0 < Vec.dist self.position o.position) :
    Boid.separationChecked self others = some (Boid.separation self others) := by
  unfold Boid.separationChecked Boid.separation Boid.sepScan
  rw [sepScanChecked_eq self others h (⟨0, 0⟩, 0)]
  dsimp only
  split_ifs <;> rfl

/-- Witness for C10 at the concrete example pair: the single neighbor lies
at distance 1, so the checked separation succeeds with the value computed
by the plain rule. -/
theorem c10_separation_finite_witness :
    Boid.separationChecked exA [exB] = some ⟨-(1 / 2), 0⟩ := by
  have h := c10_separation_finite exA [exB] (by
    intro o ho _
    rw [List.mem_singleton.mp ho, exA_exB_dist]
    norm_num)
  rw [h, sep_example]

theorem Vec.mult_zero (v : Vec) : v.mult 0 = ⟨0, 0⟩ := by
  unfold Vec.mult
  simp

theorem Vec.vadd_zero (v : Vec) : v.add ⟨0, 0⟩ = v := by
  unfold Vec.add
  simp

theorem Vec.zero_vadd (v : Vec) : Vec.add ⟨0, 0⟩ v = v := by
  unfold Vec.add
  simp

theorem Vec.limit_id_of_le {v : Vec} {mx : ℝ} (h : v.mag ≤ mx) : v.limit mx = v := by
  unfold Vec.limit
  rw [if_neg (not_lt.mpr h)]

/-- Unfolding equation of Boid.update, shared by several evaluations. -/
theorem Boid.update_eq (b : Boid) :
    Boid.update b =
      { position := b.position.add ((b.velocity.add b.acceleration).limit MAX_SPEED)
        velocity := (b.velocity.add b.acceleration).limit MAX_SPEED
        acceleration := ⟨0, 0⟩
        size := b.size
        color := b.color } := by
  unfold Boid.update
  simp [Vec.mult]

/-- Wrap-mode edges is the identity on an agent inside the bounds. -/
theorem Boid.edges_id_of_inside (w h : ℝ) (b : Boid)
    (hx0 : 0 ≤ b.position.x) (hxw : b.position.x ≤ w)
    (hy0 : 0 ≤ b.position.y) (hyh : b.position.y ≤ h) :
    Boid.edges w h true b = b := by
  unfold Boid.edges
  rw [if_pos rfl]
  rw [if_neg (not_lt.mpr hxw), if_neg (not_lt.mpr hx0),
    if_neg (not_lt.mpr hyh), if_neg (not_lt.mpr hy0)]

theorem applyOrbForces_nil (percep : ℝ) (b : Boid) :
    Boid.applyOrbForces percep b [] = b := rfl

/-- Simulation parameters read by the frame loop: perception radius, the
three rule weights, the canvas extents and the boundary mode. -/
structure Cfg where
  percep : ℝ
  sepW : ℝ
  aliW : ℝ
  cohW : ℝ
  width : ℝ
  height : ℝ
  wrap : Bool

/-- Boid.flock of the source: scale each of the three rule results by its
weight and add them into the acceleration with three applyForce calls. -/
noncomputable def Boid.flock (cfg : Cfg) (self : Boid) (others : List Boid) : Boid :=
  { self with acceleration :=
      (((self.acceleration.add ((Boid.separation self others).mult cfg.sepW)).add
        ((Boid.alignment cfg.percep self others).mult cfg.aliW)).add
        ((Boid.cohesion cfg.percep self others).mult cfg.cohW)) }

/-- Placeholder agent for out-of-range list access. -/
def defaultBoid : Boid := ⟨⟨0, 0⟩, ⟨0, 0⟩, ⟨0, 0⟩, 0, ""⟩

/-- Per-agent pipeline of one animation frame, as the body of the loop of
animate: flock against the other agents of the given population state,
apply orb forces, integrate, resolve boundaries; drawing does not change
the state. The agent at index i scans the population with itself removed,
matching the reference-identity test of the source. -/
noncomputable def stepBoid (cfg : Cfg) (orbs : List Orb) (bs : List Boid) (i : ℕ) : Boid :=
  Boid.edges cfg.width cfg.height cfg.wrap
    (Boid.update
      (Boid.applyOrbForces cfg.percep
        (Boid.flock cfg (bs.getD i defaultBoid) (bs.eraseIdx i))
        orbs))

/-- First k iterations of the in-place frame loop of animate: agent i is
replaced by its pipeline result computed against the current, partially
updated population, exactly as the source mutates the boid objects inside
the array while iterating over it. -/
noncomputable def seqUpto (cfg : Cfg) (orbs : List Orb) (bs : List Boid) (k : ℕ) :
    List Boid :=
  (List.range k).foldl (fun acc i => acc.set i (stepBoid cfg orbs acc i)) bs

/-- One full frame of animate as the source executes it. -/
noncomputable def frameSeq (cfg : Cfg) (orbs : List Orb) (bs : List Boid) : List Boid :=
  seqUpto cfg orbs bs bs.length

/-- Modelled from the words of the claim: a frame in which every scan
observes every other agent as it was at the start of the frame. -/
noncomputable def frameSnap (cfg : Cfg) (orbs : List Orb) (bs : List Boid) : List Boid :=
  (List.range bs.length).map (fun i => stepBoid cfg orbs bs i)

theorem seqUpto_zero (cfg : Cfg) (orbs : List Orb) (bs : List Boid) :
    seqUpto cfg orbs bs 0 = bs := rfl

theorem seqUpto_succ (cfg : Cfg) (orbs : List Orb) (bs : List Boid) (k : ℕ) :
    seqUpto cfg orbs bs (k + 1)
      = (seqUpto cfg orbs bs k).set k (stepBoid cfg orbs (seqUpto cfg orbs bs k) k) := by
  unfold seqUpto
  rw [List.range_succ, List.foldl_append, List.foldl_cons, List.foldl_nil]

theorem seqUpto_length (cfg : Cfg) (orbs : List Orb) (bs : List Boid) (k : ℕ) :
    (seqUpto cfg orbs bs k).length = bs.length := by
  induction k with
  | zero => rfl
  | succ k ih => rw [seqUpto_succ, List.length_set, ih]

/-- Entries at or beyond the already-processed prefix still hold their
frame-start state. -/
theorem seqUpto_getD_of_le (cfg : Cfg) (orbs : List Orb) (bs : List Boid) (dflt : Boid) :
    ∀ k j, k ≤ j → (seqUpto cfg orbs bs k).getD j dflt = bs.getD j dflt := by
  intro k
  induction k with
  | zero => intro j _; rfl
  | succ k ih =>
      intro j hj
      rw [seqUpto_succ, List.getD_eq_getElem?_getD,
        List.getElem?_set_ne (by omega : k ≠ j), ← List.getD_eq_getElem?_getD]
      exact ih j (by omega)

/-- Once processed, an entry keeps its value through the rest of the loop. -/
theorem seqUpto_getD_stable (cfg : Cfg) (orbs : List Orb) (bs : List Boid) (dflt : Boid)
    (i : ℕ) :
    ∀ m, i < m →
      (seqUpto cfg orbs bs m).getD i dflt = (seqUpto cfg orbs bs (i + 1)).getD i dflt := by
  intro m
  induction m with
  | zero => intro h; exact absurd h (Nat.not_lt_zero i)
  | succ m ih =>
      intro him
      by_cases hmi : i + 1 = m + 1
      · rw [hmi]
      · have him2 : i < m := by omega
        rw [seqUpto_succ, List.getD_eq_getElem?_getD,
          List.getElem?_set_ne (by omega : m ≠ i), ← List.getD_eq_getElem?_getD]
        exact ih him2

/-- C5 as amended: the frame loop of animate updates the agents
sequentially in place, so the scan of agent i observes the already-updated
state of the agents with smaller index and the frame-start state of itself
and every agent with index at least i; the population container keeps its
length during the frame. The claimed frame-start snapshot semantics fails
(see the counterexample). -/
theorem c5_frame_sequential_corrected (cfg : Cfg) (orbs : List Orb) (bs : List Boid)
    (dflt : Boid) (i : ℕ) (hi : i < bs.length) :
    ((frameSeq cfg orbs bs).getD i dflt
      = stepBoid cfg orbs (seqUpto cfg orbs bs i) i) ∧
    (∀ j, i ≤ j → (seqUpto cfg orbs bs i).getD j dflt = bs.getD j dflt) ∧
    (frameSeq cfg orbs bs).length = bs.length := by
  refine ⟨?_, ?_, seqUpto_length cfg orbs bs bs.length⟩
  · unfold frameSeq
    rw [seqUpto_getD_stable cfg orbs bs dflt i bs.length hi, seqUpto_succ,
      List.getD_eq_getElem?_getD,
      List.getElem?_set_self (by rw [seqUpto_length]; exact hi), Option.getD_some]
  · intro j hj
    exact seqUpto_getD_of_le cfg orbs bs dflt i j hj

/-- Witness for the amended C5 at a concrete population of two agents. -/
theorem c5_frame_sequential_corrected_witness :
    ((frameSeq ⟨50, 0, 1, 0, 1000, 1000, true⟩ [] [exA, exB]).getD 1 defaultBoid
      = stepBoid ⟨50, 0, 1, 0, 1000, 1000, true⟩ []
          (seqUpto ⟨50, 0, 1, 0, 1000, 1000, true⟩ [] [exA, exB] 1) 1) ∧
    (∀ j, 1 ≤ j →
      (seqUpto ⟨50, 0, 1, 0, 1000, 1000, true⟩ [] [exA, exB] 1).getD j defaultBoid
        = [exA, exB].getD j defaultBoid) ∧
    (frameSeq ⟨50, 0, 1, 0, 1000, 1000, true⟩ [] [exA, exB]).length = 2 :=
  c5_frame_sequential_corrected ⟨50, 0, 1, 0, 1000, 1000, true⟩ [] [exA, exB]
    defaultBoid 1 (by simp)

/-- Runtime configuration used by the C5 counterexample: perception radius
50, separation and cohesion weights 0, alignment weight 1, a large canvas
and wrap mode. -/
def cfgEx : Cfg := ⟨50, 0, 1, 0, 1000, 1000, true⟩

/-- Second agent of the counterexample population: 20 units to the right
of the first, moving upward at unit speed. -/
def exC : Boid := ⟨⟨20, 0⟩, ⟨0, 1⟩, ⟨0, 0⟩, 2, "hsl(200, 70%, 65%)"⟩

/-- State of the first agent after its own pipeline step. -/
noncomputable def vA : Boid := ⟨⟨0, 1 / 2⟩, ⟨0, 1 / 2⟩, ⟨0, 0⟩, 2, "hsl(0, 70%, 65%)"⟩

/-- State of the second agent after the sequential frame, scanning the
already-updated first agent. -/
noncomputable def vBseq : Boid := ⟨⟨20, 3 / 2⟩, ⟨0, 3 / 2⟩, ⟨0, 0⟩, 2, "hsl(200, 70%, 65%)"⟩

/-- State the second agent would take under frame-start snapshot
semantics. -/
noncomputable def vBsnap : Boid := ⟨⟨20, 1 / 2⟩, ⟨0, 1 / 2⟩, ⟨0, 0⟩, 2, "hsl(200, 70%, 65%)"⟩

theorem dist_exA_exC : Vec.dist exA.position exC.position = 20 := by
  refine Vec.dist_eval (by norm_num) ?_
  show ((0 : ℝ) - 20) ^ 2 + ((0 : ℝ) - 0) ^ 2 = 20 ^ 2
  norm_num

theorem dist_exC_exA : Vec.dist exC.position exA.position = 20 := by
  refine Vec.dist_eval (by norm_num) ?_
  show ((20 : ℝ) - 0) ^ 2 + ((0 : ℝ) - 0) ^ 2 = 20 ^ 2
  norm_num

theorem dist_exC_vA_lt : Vec.dist exC.position vA.position < 50 := by
  unfold Vec.dist
  rw [show (exC.position.x - vA.position.x) ^ 2 + (exC.position.y - vA.position.y) ^ 2
      = (1601 / 4 : ℝ) from by norm_num [exC, vA]]
  rw [Real.sqrt_lt' (by norm_num : (0 : ℝ) < 50)]
  norm_num

/-- Flocking under the counterexample configuration reduces to the
alignment rule: the separation and cohesion weights are 0. -/
theorem flock_cfgEx (self : Boid) (others : List Boid)
    (hacc : self.acceleration = ⟨0, 0⟩) :
    Boid.flock cfgEx self others
      = { self with acceleration := Boid.alignment 50 self others } := by
  unfold Boid.flock
  rw [hacc]
  have h2 : (((Vec.mk 0 0).add ((Boid.separation self others).mult cfgEx.sepW)).add
      ((Boid.alignment cfgEx.percep self others).mult cfgEx.aliW)).add
      ((Boid.cohesion cfgEx.percep self others).mult cfgEx.cohW)
      = Boid.alignment 50 self others := by
    rw [show cfgEx.sepW = 0 from rfl, show cfgEx.aliW = 1 from rfl,
      show cfgEx.cohW = 0 from rfl, show cfgEx.percep = 50 from rfl]
    rw [Vec.mult_zero, Vec.mult_zero, Vec.mult_one, Vec.vadd_zero, Vec.vadd_zero,
      Vec.zero_vadd]
  rw [h2]

/-- Scan of the alignment loop over a single in-range neighbor. -/
theorem aliScan_single (self other : Boid)
    (h : Vec.dist self.position other.position < 50) :
    Boid.aliScan 50 self [other] = ((Vec.mk 0 0).add other.velocity, 1) := by
  unfold Boid.aliScan
  rw [List.foldl_cons, List.foldl_nil]
  unfold Boid.aliStep
  rw [if_pos h]

theorem ali_eval_A : Boid.alignment 50 exA [exC] = ⟨0, 1 / 2⟩ := by
  have hscan : Boid.aliScan 50 exA [exC] = (⟨0, 1⟩, 1) := by
    rw [aliScan_single exA exC (by rw [dist_exA_exC]; norm_num)]
    refine Prod.ext ?_ rfl
    show (Vec.mk 0 0).add exC.velocity = Vec.mk 0 1
    unfold Vec.add
    norm_num [exC]
  unfold Boid.alignment
  rw [hscan]
  dsimp only
  rw [if_pos (by norm_num)]
  rw [show (Vec.mk 0 1).div ((1 : ℕ) : ℝ) = Vec.mk 0 1 from by unfold Vec.div; norm_num]
  rw [Vec.setMag_eval (Vec.mag_eval (by norm_num) (by norm_num) :
    Vec.mag ⟨0, 1⟩ = 1) one_pos]
  rw [show ((Vec.mk 0 1).div 1).mult MAX_SPEED = Vec.mk 0 5 from by
    unfold Vec.div Vec.mult; norm_num [MAX_SPEED]]
  rw [show (Vec.mk 0 5).sub exA.velocity = Vec.mk 0 5 from by
    unfold Vec.sub; norm_num [exA]]
  rw [Vec.limit_eval_hi (Vec.mag_eval (by norm_num) (by norm_num) :
    Vec.mag ⟨0, 5⟩ = 5) (by norm_num [MAX_FORCE]) (by norm_num)]
  unfold Vec.div Vec.mult
  norm_num [MAX_FORCE]

theorem ali_eval_Bseq : Boid.alignment 50 exC [vA] = ⟨0, 1 / 2⟩ := by
  have hscan : Boid.aliScan 50 exC [vA] = (⟨0, 1 / 2⟩, 1) := by
    rw [aliScan_single exC vA dist_exC_vA_lt]
    refine Prod.ext ?_ rfl
    show (Vec.mk 0 0).add vA.velocity = Vec.mk 0 (1 / 2)
    unfold Vec.add
    norm_num [vA]
  unfold Boid.alignment
  rw [hscan]
  dsimp only
  rw [if_pos (by norm_num)]
  rw [show (Vec.mk 0 (1 / 2)).div ((1 : ℕ) : ℝ) = Vec.mk 0 (1 / 2) from by
    unfold Vec.div; norm_num]
  rw [Vec.setMag_eval (Vec.mag_eval (by norm_num) (by norm_num) :
    Vec.mag ⟨0, 1 / 2⟩ = 1 / 2) (by norm_num)]
  rw [show ((Vec.mk 0 (1 / 2)).div (1 / 2)).mult MAX_SPEED = Vec.mk 0 5 from by
    unfold Vec.div Vec.mult; norm_num [MAX_SPEED]]
  rw [show (Vec.mk 0 5).sub exC.velocity = Vec.mk 0 4 from by
    unfold Vec.sub; norm_num [exC]]
  rw [Vec.limit_eval_hi (Vec.mag_eval (by norm_num) (by norm_num) :
    Vec.mag ⟨0, 4⟩ = 4) (by norm_num [MAX_FORCE]) (by norm_num)]
  unfold Vec.div Vec.mult
  norm_num [MAX_FORCE]

theorem ali_eval_Bsnap : Boid.alignment 50 exC [exA] = ⟨0, -(1 / 2)⟩ := by
  have hscan : Boid.aliScan 50 exC [exA] = (⟨0, 0⟩, 1) := by
    rw [aliScan_single exC exA (by rw [dist_exC_exA]; norm_num)]
    refine Prod.ext ?_ rfl
    show (Vec.mk 0 0).add exA.velocity = Vec.mk 0 0
    unfold Vec.add
    norm_num [exA]
  unfold Boid.alignment
  rw [hscan]
  dsimp only
  rw [if_pos (by norm_num)]
  rw [show (Vec.mk 0 0).div ((1 : ℕ) : ℝ) = Vec.mk 0 0 from by
    unfold Vec.div; norm_num]
  rw [show (Vec.mk 0 0).setMag MAX_SPEED = Vec.mk 0 0 from by
    unfold Vec.setMag Vec.normalize
    rw [show Vec.mag ⟨0, 0⟩ = 0 from Vec.mag_eval le_rfl (by norm_num),
      if_neg (lt_irrefl 0)]
    unfold Vec.mult
    norm_num]
  rw [show (Vec.mk 0 0).sub exC.velocity = Vec.mk 0 (-1) from by
    unfold Vec.sub; norm_num [exC]]
  rw [Vec.limit_eval_hi (Vec.mag_eval (by norm_num) (by norm_num) :
    Vec.mag ⟨0, -1⟩ = 1) (by norm_num [MAX_FORCE]) (by norm_num)]
  unfold Vec.div Vec.mult
  norm_num [MAX_FORCE]

/-- Evaluation scheme for one pipeline step under the counterexample
configuration, with no orbs, a zero starting acceleration, an in-bound
resulting position and an in-cap resulting speed. -/
theorem stepBoid_eval_cfgEx (bs : List Boid) (i : ℕ) (self : Boid) (others : List Boid)
    (hget : bs.getD i defaultBoid = self)
    (herase : bs.eraseIdx i = others)
    (hacc : self.acceleration = ⟨0, 0⟩)
    {ali w p : Vec}
    (hali : Boid.alignment 50 self others = ali)
    (hw : self.velocity.add ali = w)
    (hwmag : w.mag ≤ MAX_SPEED)
    (hp : self.position.add w = p)
    (hx0 : 0 ≤ p.x) (hxw : p.x ≤ 1000) (hy0 : 0 ≤ p.y) (hyh : p.y ≤ 1000) :
    stepBoid cfgEx [] bs i
      = { position := p, velocity := w, acceleration := ⟨0, 0⟩,
          size := self.size, color := self.color } := by
  unfold stepBoid
  rw [hget, herase, flock_cfgEx self others hacc, hali,
    applyOrbForces_nil, Boid.update_eq]
  dsimp only
  rw [hw, Vec.limit_id_of_le hwmag, hp]
  rw [show cfgEx.width = 1000 from rfl, show cfgEx.height = 1000 from rfl,
    show cfgEx.wrap = true from rfl]
  exact Boid.edges_id_of_inside 1000 1000 _ hx0 hxw hy0 hyh

theorem step_exA : stepBoid cfgEx [] [exA, exC] 0 = vA := by
  rw [stepBoid_eval_cfgEx [exA, exC] 0 exA [exC] rfl rfl rfl ali_eval_A
    (by show (Vec.mk 0 0).add (Vec.mk 0 (1 / 2)) = Vec.mk 0 (1 / 2); unfold Vec.add; norm_num)
    (by rw [Vec.mag_eval (show (0 : ℝ) ≤ 1 / 2 by norm_num) (by norm_num)]
        norm_num [MAX_SPEED])
    (by show (Vec.mk 0 0).add (Vec.mk 0 (1 / 2)) = Vec.mk 0 (1 / 2); unfold Vec.add; norm_num)
    (by norm_num) (by norm_num) (by norm_num) (by norm_num)]
  rfl

theorem step_Bseq : stepBoid cfgEx [] [vA, exC] 1 = vBseq := by
  rw [stepBoid_eval_cfgEx [vA, exC] 1 exC [vA] rfl rfl rfl ali_eval_Bseq
    (by show (Vec.mk 0 1).add (Vec.mk 0 (1 / 2)) = Vec.mk 0 (3 / 2); unfold Vec.add; norm_num)
    (by rw [Vec.mag_eval (show (0 : ℝ) ≤ 3 / 2 by norm_num) (by norm_num)]
        norm_num [MAX_SPEED])
    (by show (Vec.mk 20 0).add (Vec.mk 0 (3 / 2)) = Vec.mk 20 (3 / 2); unfold Vec.add; norm_num)
    (by norm_num) (by norm_num) (by norm_num) (by norm_num)]
  rfl

theorem step_Bsnap : stepBoid cfgEx [] [exA, exC] 1 = vBsnap := by
  rw [stepBoid_eval_cfgEx [exA, exC] 1 exC [exA] rfl rfl rfl ali_eval_Bsnap
    (by show (Vec.mk 0 1).add (Vec.mk 0 (-(1 / 2))) = Vec.mk 0 (1 / 2); unfold Vec.add; norm_num)
    (by rw [Vec.mag_eval (show (0 : ℝ) ≤ 1 / 2 by norm_num) (by norm_num)]
        norm_num [MAX_SPEED])
    (by show (Vec.mk 20 0).add (Vec.mk 0 (1 / 2)) = Vec.mk 20 (1 / 2); unfold Vec.add; norm_num)
    (by norm_num) (by norm_num) (by norm_num) (by norm_num)]
  rfl

theorem frameSeq_eval : frameSeq cfgEx [] [exA, exC] = [vA, vBseq] := by
  show seqUpto cfgEx [] [exA, exC] [exA, exC].length = [vA, vBseq]
  rw [show [exA, exC].length = 2 from rfl, show (2 : ℕ) = 1 + 1 from rfl,
    seqUpto_succ, show (1 : ℕ) = 0 + 1 from rfl, seqUpto_succ, seqUpto_zero,
    step_exA, show [exA, exC].set 0 vA = [vA, exC] from rfl, step_Bseq]
  rfl

theorem frameSnap_eval : frameSnap cfgEx [] [exA, exC] = [vA, vBsnap] := by
  show [stepBoid cfgEx [] [exA, exC] 0, stepBoid cfgEx [] [exA, exC] 1] = [vA, vBsnap]
  rw [step_exA, step_Bsnap]

/-- Counterexample to C5 as stated: on a concrete two-agent population the
sequential in-place frame of the source differs from the frame-start
snapshot semantics asserted by the claim, because the second agent scans
the first agent after its update within the same frame. -/
theorem c5_frame_counterexample :
    frameSeq cfgEx [] [exA, exC] ≠ frameSnap cfgEx [] [exA, exC] := by
  rw [frameSeq_eval, frameSnap_eval]
  intro hcontra
  have h1 : vBseq = vBsnap := by
    injection hcontra with h0 h2
    injection h2 with h3 h4
  have h4 : (3 / 2 : ℝ) = 1 / 2 := by
    have h5 := congrArg (fun b => b.position.y) h1
    simpa [vBseq, vBsnap] using h5
  norm_num at h4

end BoidSim
